import Mathlib

/-!
Verification of the race-model violation engine of MSI-Consortium/CART-GUI
(src/srt_analysis_deluxe_GUI.py), shallowly embedded over exact rationals.

Conventions of the embedding:
* numpy float arrays become lists of rationals; all arithmetic is exact;
* a pandas dataframe of trials becomes a list of Trial records;
* a Python function that can return None returns an Option;
* the float NaN produced by np.mean on an empty slice is modelled by the
  value none of an Option-valued mean (npMean below);
* the scipy Gaussian CDF stats.norm.cdf used by the Coactivation model is a
  transcendental special function with no exact rational form, so the
  coactivation variant carries an abstract curve phi standing for the map
  rt -> norm.cdf(rt, mean_c, std_c) at the slider-chosen parameters.
-/

/-- One row of the trial table: participant id, modality code
(1 = Audio, 2 = Visual, 3 = Audiovisual) and reaction time. -/
structure Trial where
  participant : ℕ
  modality : ℕ
  rt : ℚ
deriving DecidableEq, Repr

/-- np.clip(x, 0, 1): clamp a value into the unit interval. -/
def clip01 (x : ℚ) : ℚ := min (max x 0) 1

/-- Python list slicing l[a:b] for non-negative bounds. -/
def pySlice (l : List ℚ) (a b : ℕ) : List ℚ := (l.take b).drop a

/-- np.mean of a list; none models the NaN that numpy returns on an empty
array. -/
def npMean (l : List ℚ) : Option ℚ :=
  if l.isEmpty then none else some (l.sum / l.length)

/-- Minimum of a list (pandas Series.min); only used behind non-emptiness
guards, 0 on the empty list. -/
def listMin : List ℚ → ℚ
  | [] => 0
  | a :: r => r.foldl min a

/-- Maximum of a list (pandas Series.max); only used behind non-emptiness
guards, 0 on the empty list. -/
def listMax : List ℚ → ℚ
  | [] => 0
  | a :: r => r.foldl max a

/-- np.linspace(a, b, n): n evenly spaced points from a to b inclusive. -/
def linspace (a b : ℚ) (n : ℕ) : List ℚ :=
  (List.range n).map (fun i : ℕ => a + (b - a) * (i : ℚ) / ((n - 1 : ℕ) : ℚ))

/-- Interior walk of np.interp: given the (xp, fp) pairs still to the right
and an evaluation point x known to satisfy head.1 <= x, return the
interpolated value.  Mirrors numpy's compiled_interp: find the largest j with
xp[j] <= x; if it is the last index or xp[j] = x return fp[j], otherwise
interpolate linearly on [xp[j], xp[j+1]]. -/
def interpGo (x : ℚ) : List (ℚ × ℚ) → ℚ
  | [] => 0
  | [p] => p.2
  | p :: q :: rest =>
      if q.1 ≤ x then interpGo x (q :: rest)
      else if x = p.1 then p.2
      else p.2 + (q.2 - p.2) * (x - p.1) / (q.1 - p.1)

/-- np.interp(x, xp, fp) for an ascending xp: values left of xp[0] clamp to
fp[0], values right of xp[-1] clamp to fp[-1], in between linear
interpolation. -/
def np_interp (x : ℚ) (xp fp : List ℚ) : ℚ :=
  match xp, fp with
  | x0 :: _, f0 :: _ => if x < x0 then f0 else interpGo x (xp.zip fp)
  | _, _ => 0

/-- The rank curve np.arange(1, n+1) / n of an n-point sample. -/
def ranks (n : ℕ) : List ℚ :=
  (List.range n).map (fun i : ℕ => ((i : ℚ) + 1) / (n : ℚ))

/-- ECDF of a reaction-time sample interpolated onto a grid:
np.interp(grid, np.sort(sample), np.arange(1, n+1)/n). -/
def ecdfOnGrid (sample grid : List ℚ) : List ℚ :=
  grid.map (fun x => np_interp x (List.insertionSort (· ≤ ·) sample) (ranks sample.length))

/-- The model selector state.  The five implemented entries of the model
combo box are the five constructors below; other stands for any remaining
selector text, such as the "Permutation Test" entry, for which
_calculate_race_model returns None.  The coactivation constructor carries
the Gaussian CDF curve phi determined by the mean/std sliders (see the
module docstring); pir carries gamma = slider/100 and mre carries
alpha, beta, lam = slider/100, so the 0..100 slider ranges put each
parameter in [0, 1]. -/
inductive ModelType where
  | standard
  | miller
  | coactivation (phi : ℚ → ℚ)
  | pir (gamma : ℚ)
  | mre (alpha beta lam : ℚ)
  | other

/-- Whether the selector text is one of the five implemented models. -/
def ModelType.known : ModelType → Bool
  | .other => false
  | _ => true

/-- _calculate_race_model: predicted AV CDF from the two unisensory ECDFs
(and the grid, for the coactivation model), clipped to [0,1]; None for an
unknown selector text. -/
def calculate_race_model (m : ModelType) (ecdf_a ecdf_v common_rts : List ℚ) :
    Option (List ℚ) :=
  match m with
  | .standard =>
      some ((List.zipWith (fun a v => 1 - (1 - a) * (1 - v)) ecdf_a ecdf_v).map clip01)
  | .miller =>
      some ((List.zipWith (fun a v => min (a + v) 1) ecdf_a ecdf_v).map clip01)
  | .coactivation phi =>
      some ((common_rts.map phi).map clip01)
  | .pir gamma =>
      some ((List.zipWith
        (fun a v => (1 - (1 - a) * (1 - v)) + gamma * min a v) ecdf_a ecdf_v).map clip01)
  | .mre alpha beta lam =>
      some ((List.zipWith
        (fun a v => alpha * a + beta * v + lam * (a * v)) ecdf_a ecdf_v).map clip01)
  | .other => none

/-- Reaction times of one modality: data[data['modality'] == m]['reaction_time']. -/
def colRT (data : List Trial) (m : ℕ) : List ℚ :=
  (data.filter (fun t => t.modality == m)).map (fun t => t.rt)

/-- pandas Series.unique: the participant ids in order of first appearance. -/
def uniqueKeep : List ℕ → List ℕ
  | [] => []
  | a :: rest => a :: uniqueKeep (rest.filter (fun b => b ≠ a))
termination_by l => l.length
decreasing_by
  exact Nat.lt_succ_of_le (List.length_filter_le _ _)

/-- The per-participant arrays accumulated by the per-participant loop of
calculate_race_violation: the three ECDFs, the race-model curve, and the
participant's violation curve np.maximum(ecdf_av - race_model, 0). -/
structure PCurves where
  ea : List ℚ
  ev : List ℚ
  eav : List ℚ
  race : List ℚ
  viol : List ℚ
deriving DecidableEq

/-- The per-participant loop of calculate_race_violation: for each distinct
participant, skip it when a modality is empty or has fewer than 2 trials, or
when the race model is None; otherwise collect its curves on the shared
grid. -/
def participantCurves (m : ModelType) (data : List Trial) (grid : List ℚ) :
    List PCurves :=
  (uniqueKeep (data.map (fun t => t.participant))).filterMap (fun p =>
    let pdata := data.filter (fun t => t.participant == p)
    let rt_a := colRT pdata 1
    let rt_v := colRT pdata 2
    let rt_av := colRT pdata 3
    if rt_a = [] ∨ rt_v = [] ∨ rt_av = [] ∨
        rt_a.length < 2 ∨ rt_v.length < 2 ∨ rt_av.length < 2 then none
    else
      let ea := ecdfOnGrid rt_a grid
      let ev := ecdfOnGrid rt_v grid
      let eav := ecdfOnGrid rt_av grid
      match calculate_race_model m ea ev grid with
      | none => none
      | some race => some ⟨ea, ev, eav, race, List.zipWith (fun o q => max (o - q) 0) eav race⟩)

/-- np.mean(list_of_arrays, axis=0): elementwise average of equal-length
arrays (all arrays in this development have length n = 500). -/
def listAvg (ls : List (List ℚ)) (n : ℕ) : List ℚ :=
  (ls.foldr (List.zipWith (· + ·)) (List.replicate n 0)).map (fun x => x / (ls.length : ℚ))

/-- int(len * p / 100): percentile to grid index (slider percentiles are
non-negative, so Python's int() truncation is the floor). -/
def pctIdx (n : ℕ) (p : ℚ) : ℕ := (⌊(n : ℚ) * p / 100⌋).toNat

/-- The tuple returned by calculate_race_violation. -/
structure RaceResult where
  meanViolation : Option ℚ
  commonRts : List ℚ
  ecdfA : List ℚ
  ecdfV : List ℚ
  ecdfAV : List ℚ
  raceCurve : List ℚ
deriving DecidableEq

/-- calculate_race_violation(participant_data, percentile_range,
per_participant).  Per-participant mode: shared 500-point grid spanning all
reaction times of the filtered data, per-participant curves averaged over
qualifying participants.  Pooled mode: one ECDF per modality over all rows.
Both modes end by slicing the violation curve with the percentile window and
taking its mean (NaN, i.e. none, on an empty window).  The pooled branch's
pd.isna guard cannot fire over ℚ (no NaN inputs) and its redundant re-check
of the sample lengths is subsumed by the emptiness guard. -/
def calculate_race_violation (m : ModelType) (data : List Trial)
    (pr : ℚ × ℚ) (perParticipant : Bool) : Option RaceResult :=
  if perParticipant then
    let all_rt := data.map (fun t => t.rt)
    if all_rt = [] then none
    else
      let common_rts := linspace (listMin all_rt) (listMax all_rt) 500
      let results := participantCurves m data common_rts
      if results = [] then none
      else
        let violations := listAvg (results.map (fun c => c.viol)) 500
        let lower := pctIdx violations.length pr.1
        let upper := pctIdx violations.length pr.2
        some ⟨npMean (pySlice violations lower upper), common_rts,
          listAvg (results.map (fun c => c.ea)) 500,
          listAvg (results.map (fun c => c.ev)) 500,
          listAvg (results.map (fun c => c.eav)) 500,
          listAvg (results.map (fun c => c.race)) 500⟩
  else
    let rt_a := colRT data 1
    let rt_v := colRT data 2
    let rt_av := colRT data 3
    if rt_a = [] ∨ rt_v = [] ∨ rt_av = [] then none
    else
      let min_val := min (listMin rt_a) (min (listMin rt_v) (listMin rt_av))
      let max_val := max (listMax rt_a) (max (listMax rt_v) (listMax rt_av))
      if min_val = max_val then none
      else
        let common_rts := linspace min_val max_val 500
        let ecdf_a := ecdfOnGrid rt_a common_rts
        let ecdf_v := ecdfOnGrid rt_v common_rts
        let ecdf_av := ecdfOnGrid rt_av common_rts
        match calculate_race_model m ecdf_a ecdf_v common_rts with
        | none => none
        | some race =>
          let violations := List.zipWith (fun o q => max (o - q) 0) ecdf_av race
          let lower := pctIdx violations.length pr.1
          let upper := pctIdx violations.length pr.2
          some ⟨npMean (pySlice violations lower upper), common_rts,
            ecdf_a, ecdf_v, ecdf_av, race⟩

/-- The violation-magnitude array of a calculate_race_violation call: the
average over qualifying participants of the per-participant arrays
np.maximum(ecdf_av - race_model, 0) in per-participant mode, the pooled
np.maximum(ecdf_av - race_model, 0) in pooled mode; none exactly when the
call returns None. -/
def violationArray (m : ModelType) (data : List Trial) (perParticipant : Bool) :
    Option (List ℚ) :=
  if perParticipant then
    let all_rt := data.map (fun t => t.rt)
    if all_rt = [] then none
    else
      let common_rts := linspace (listMin all_rt) (listMax all_rt) 500
      let results := participantCurves m data common_rts
      if results = [] then none
      else some (listAvg (results.map (fun c => c.viol)) 500)
  else
    let rt_a := colRT data 1
    let rt_v := colRT data 2
    let rt_av := colRT data 3
    if rt_a = [] ∨ rt_v = [] ∨ rt_av = [] then none
    else
      let min_val := min (listMin rt_a) (min (listMin rt_v) (listMin rt_av))
      let max_val := max (listMax rt_a) (max (listMax rt_v) (listMax rt_av))
      if min_val = max_val then none
      else
        let common_rts := linspace min_val max_val 500
        let ecdf_a := ecdfOnGrid rt_a common_rts
        let ecdf_v := ecdfOnGrid rt_v common_rts
        let ecdf_av := ecdfOnGrid rt_av common_rts
        match calculate_race_model m ecdf_a ecdf_v common_rts with
        | none => none
        | some race => some (List.zipWith (fun o q => max (o - q) 0) ecdf_av race)

/-- The modality-coverage guard at the top of get_participant_violation_value:
every one of the three modality codes occurs in the data. -/
def hasAllModalities (data : List Trial) : Bool :=
  data.any (fun t => t.modality == 1) && data.any (fun t => t.modality == 2) &&
    data.any (fun t => t.modality == 3)

/-- get_participant_violation_value(participant_data, percentile_range): the
windowed sum of positive differences between the returned AV ECDF and the
returned race-model curve, None when a modality is absent or the violation
computation fails. -/
def get_participant_violation_value (m : ModelType) (data : List Trial)
    (pr : ℚ × ℚ) (perParticipant : Bool) : Option ℚ :=
  if hasAllModalities data then
    match calculate_race_violation m data pr perParticipant with
    | none => none
    | some r =>
      let lower := pctIdx r.commonRts.length pr.1
      let upper := pctIdx r.commonRts.length pr.2
      some ((List.zipWith (fun o q => max (o - q) 0)
        (pySlice r.ecdfAV lower upper) (pySlice r.raceCurve lower upper)).sum)
  else none

/-- The participant filter of plot_race_model: a participant whose violation
value exists is kept when it lies within the raw-value slider bounds;
participants without a value are neither kept nor excluded (none). -/
def plot_race_model_keeps (m : ModelType) (loVal hiVal : ℚ) (sub : List Trial)
    (pr : ℚ × ℚ) (perParticipant : Bool) : Option Bool :=
  (get_participant_violation_value m sub pr perParticipant).map
    (fun v => decide (loVal ≤ v ∧ v ≤ hiVal))

/-- The sorted sample: np.sort. -/
def sortedRT (s : List ℚ) : List ℚ := List.insertionSort (· ≤ ·) s


/-- A Boolean check that a list is non-decreasing in order. -/
def nondecreasing : List ℚ → Bool
  | a :: b :: r => decide (a ≤ b) && nondecreasing (b :: r)
  | _ => true


/-- Boolean unit-interval check. -/
def inUnit (x : ℚ) : Bool := decide (0 ≤ x) && decide (x ≤ 1)


/-- Pooled-mode example data: one participant, two trials in each modality. -/
def dEx : List Trial :=
  [⟨1, 1, 100⟩, ⟨1, 1, 200⟩, ⟨1, 2, 120⟩, ⟨1, 2, 220⟩, ⟨1, 3, 110⟩, ⟨1, 3, 210⟩]

/-- Pooled-mode example data with exactly one Audio trial. -/
def dC2 : List Trial := [⟨1, 1, 100⟩, ⟨1, 2, 200⟩, ⟨1, 2, 300⟩, ⟨1, 3, 150⟩, ⟨1, 3, 250⟩]


/-- Per-participant example: participant 1 has two trials per modality in
[100, 160]; participant 2 has a single Audio trial at 1000 and fails the
coverage check. -/
def dC5a : List Trial :=
  [⟨1, 1, 100⟩, ⟨1, 1, 150⟩, ⟨1, 2, 120⟩, ⟨1, 2, 160⟩, ⟨1, 3, 110⟩, ⟨1, 3, 140⟩,
   ⟨2, 1, 1000⟩]

/-- dC5a without the coverage-failing participant 2. -/
def dC5b : List Trial :=
  [⟨1, 1, 100⟩, ⟨1, 1, 150⟩, ⟨1, 2, 120⟩, ⟨1, 2, 160⟩, ⟨1, 3, 110⟩, ⟨1, 3, 140⟩]



/-- Modelled from the spec: the Permutation Tester of section 4.4 is absent
from the repository sources — only its parameter widgets appear (defaults
below) — so one permuted violation value is modelled from the specification
text: re-partition a reshuffle of the pooled RT array into segments of the
original per-modality sample sizes, recompute the three ECDFs on the same
grid, recompute the predicted curve with the same model variant and
parameters, and take the mean violation magnitude over the full grid. -/
def permuted_violation (m : ModelType) (shuffled : List ℚ) (nA nV nAV : ℕ)
    (grid : List ℚ) : Option ℚ :=
  (calculate_race_model m (ecdfOnGrid (shuffled.take nA) grid)
      (ecdfOnGrid ((shuffled.drop nA).take nV) grid) grid).bind
    (fun race => npMean (List.zipWith (fun o q => max (o - q) 0)
      (ecdfOnGrid (((shuffled.drop nA).drop nV).take nAV) grid) race))

/-- Modelled from the spec: the one-sided p-value is the fraction of
permuted violations at least as large as the observed violation, and the
null is rejected when p is strictly below the significance level. -/
def permutation_test (observed : ℚ) (permutedVals : List ℚ) (alpha : ℚ) : ℚ × Bool :=
  (((permutedVals.filter (fun v => observed ≤ v)).length : ℚ)
      / (permutedVals.length : ℚ),
   decide ((((permutedVals.filter (fun v => observed ≤ v)).length : ℚ)
      / (permutedVals.length : ℚ)) < alpha))

/-- The permutation-count default: the "1000" QLineEdit of the widgets. -/
def default_num_permutations : ℕ := 1000

/-- The significance-level default: the "0.05" QLineEdit of the widgets. -/
def default_alpha : ℚ := 5 / 100

/-- Modelled from the spec: the whole permutation test over K reshuffles of
the pooled RT array. -/
def run_permutation_test (m : ModelType) (shuffles : List (List ℚ))
    (nA nV nAV : ℕ) (grid : List ℚ) (observed alpha : ℚ) : ℚ × Bool :=
  permutation_test observed
    (shuffles.filterMap (fun s => permuted_violation m s nA nV nAV grid)) alpha


/-- Componentwise order on interpolation nodes. -/
def pairLE (p q : ℚ × ℚ) : Prop := p.1 ≤ q.1 ∧ p.2 ≤ q.2


/-! ## Order lemmas for the linear interpolation kernel -/

theorem pairwise_zip {l1 l2 : List ℚ} (h1 : l1.Pairwise (· ≤ ·))
    (h2 : l2.Pairwise (· ≤ ·)) : (l1.zip l2).Pairwise pairLE := by
  induction l1 generalizing l2 with
  | nil => simp
  | cons a t1 ih =>
    cases l2 with
    | nil => simp
    | cons b t2 =>
      rw [List.zip_cons_cons]
      rw [List.pairwise_cons] at h1 h2 ⊢
      refine ⟨?_, ih h1.2 h2.2⟩
      rintro ⟨p1, p2⟩ hp
      obtain ⟨hm1, hm2⟩ := List.of_mem_zip hp
      exact ⟨h1.1 p1 hm1, h2.1 p2 hm2⟩

theorem interpGo_lower {c : ℚ} :
    ∀ (a : ℚ × ℚ) (l : List (ℚ × ℚ)) (x : ℚ), a.1 ≤ x →
      (∀ p ∈ a :: l, c ≤ p.2) → c ≤ interpGo x (a :: l) := by
  intro a l
  induction l generalizing a with
  | nil =>
    intro x _ hc
    exact hc a (by simp)
  | cons q rest ih =>
    intro x hax hc
    rw [interpGo]
    split
    · exact ih q x (by assumption) (fun p hp => hc p (List.mem_cons_of_mem a hp))
    · split
      · exact hc a (by simp)
      · have hca : c ≤ a.2 := hc a (by simp)
        have hcq : c ≤ q.2 := hc q (by simp)
        have hxq : x < q.1 := lt_of_not_le (by assumption)
        have hax' : a.1 < x := lt_of_le_of_ne hax (fun h => (by simp_all))
        have hD : (0:ℚ) < q.1 - a.1 := by linarith
        have hkey : c ≤ (a.2 * (q.1 - a.1) + (q.2 - a.2) * (x - a.1)) / (q.1 - a.1) := by
          rw [le_div_iff₀ hD]
          nlinarith [mul_nonneg (sub_nonneg.2 hca) (by linarith : (0:ℚ) ≤ (q.1 - a.1) - (x - a.1)),
            mul_nonneg (sub_nonneg.2 hcq) (by linarith : (0:ℚ) ≤ x - a.1)]
        calc c ≤ (a.2 * (q.1 - a.1) + (q.2 - a.2) * (x - a.1)) / (q.1 - a.1) := hkey
          _ = a.2 + (q.2 - a.2) * (x - a.1) / (q.1 - a.1) := by
              field_simp

theorem interpGo_upper {c : ℚ} :
    ∀ (a : ℚ × ℚ) (l : List (ℚ × ℚ)) (x : ℚ), a.1 ≤ x →
      (∀ p ∈ a :: l, p.2 ≤ c) → interpGo x (a :: l) ≤ c := by
  intro a l
  induction l generalizing a with
  | nil =>
    intro x _ hc
    exact hc a (by simp)
  | cons q rest ih =>
    intro x hax hc
    rw [interpGo]
    split
    · exact ih q x (by assumption) (fun p hp => hc p (List.mem_cons_of_mem a hp))
    · split
      · exact hc a (by simp)
      · have hca : a.2 ≤ c := hc a (by simp)
        have hcq : q.2 ≤ c := hc q (by simp)
        have hxq : x < q.1 := lt_of_not_le (by assumption)
        have hax' : a.1 < x := lt_of_le_of_ne hax (fun h => (by simp_all))
        have hD : (0:ℚ) < q.1 - a.1 := by linarith
        have hkey : (a.2 * (q.1 - a.1) + (q.2 - a.2) * (x - a.1)) / (q.1 - a.1) ≤ c := by
          rw [div_le_iff₀ hD]
          nlinarith [mul_nonneg (sub_nonneg.2 hca) (by linarith : (0:ℚ) ≤ (q.1 - a.1) - (x - a.1)),
            mul_nonneg (sub_nonneg.2 hcq) (by linarith : (0:ℚ) ≤ x - a.1)]
        calc a.2 + (q.2 - a.2) * (x - a.1) / (q.1 - a.1)
            = (a.2 * (q.1 - a.1) + (q.2 - a.2) * (x - a.1)) / (q.1 - a.1) := by field_simp
          _ ≤ c := hkey

theorem interpGo_last :
    ∀ (a : ℚ × ℚ) (l : List (ℚ × ℚ)) (x : ℚ), (∀ p ∈ a :: l, p.1 ≤ x) →
      interpGo x (a :: l) = ((a :: l).getLast?.map (fun p => p.2)).getD 0 := by
  intro a l
  induction l generalizing a with
  | nil => intro x _; rfl
  | cons q rest ih =>
    intro x hall
    rw [interpGo]
    rw [if_pos (hall q (by simp))]
    rw [ih q x (fun p hp => hall p (List.mem_cons_of_mem a hp))]
    rw [List.getLast?_cons_cons]

theorem interpGo_mono :
    ∀ (a : ℚ × ℚ) (l : List (ℚ × ℚ)) (x y : ℚ), x ≤ y → a.1 ≤ x →
      (a :: l).Pairwise pairLE → interpGo x (a :: l) ≤ interpGo y (a :: l) := by
  intro a l
  induction l generalizing a with
  | nil => intro x y _ _ _; exact le_refl _
  | cons q rest ih =>
    intro x y hxy hax hpw
    have hpw' := List.pairwise_cons.1 hpw
    have haq : pairLE a q := hpw'.1 q (by simp)
    by_cases hqx : q.1 ≤ x
    · have hqy : q.1 ≤ y := le_trans hqx hxy
      rw [interpGo, interpGo, if_pos hqx, if_pos hqy]
      exact ih q x y hxy hqx hpw'.2
    · have hxq : x < q.1 := lt_of_not_le hqx
      by_cases hqy : q.1 ≤ y
      · -- x stays in this segment, y moves right of q: compare through q.2
        have hstep : interpGo x (a :: q :: rest) ≤ q.2 := by
          rw [interpGo, if_neg hqx]
          split
          · exact haq.2
          · have hax' : a.1 < x := lt_of_le_of_ne hax (fun h => (by simp_all))
            have hD : (0:ℚ) < q.1 - a.1 := by linarith
            have hkey : (a.2 * (q.1 - a.1) + (q.2 - a.2) * (x - a.1)) / (q.1 - a.1) ≤ q.2 := by
              rw [div_le_iff₀ hD]
              nlinarith [mul_nonneg (sub_nonneg.2 haq.2)
                (by linarith : (0:ℚ) ≤ (q.1 - a.1) - (x - a.1))]
            calc a.2 + (q.2 - a.2) * (x - a.1) / (q.1 - a.1)
                = (a.2 * (q.1 - a.1) + (q.2 - a.2) * (x - a.1)) / (q.1 - a.1) := by field_simp
              _ ≤ q.2 := hkey
        have hrest : q.2 ≤ interpGo y (q :: rest) := by
          refine interpGo_lower q rest y hqy ?_
          intro p hp
          rcases List.mem_cons.1 hp with h | h
          · rw [h]
          · exact ((List.pairwise_cons.1 hpw'.2).1 p h).2
        calc interpGo x (a :: q :: rest) ≤ q.2 := hstep
          _ ≤ interpGo y (q :: rest) := hrest
          _ = interpGo y (a :: q :: rest) := by
              have hy : interpGo y (a :: q :: rest) = interpGo y (q :: rest) := by
                rw [interpGo, if_pos hqy]
              rw [hy]
      · -- both x and y stay in the segment [a.1, q.1)
        have hyq : y < q.1 := lt_of_not_le hqy
        rw [interpGo, interpGo, if_neg hqx, if_neg hqy]
        by_cases hxa : x = a.1
        · rw [if_pos hxa]
          by_cases hya : y = a.1
          · rw [if_pos hya]
          · rw [if_neg hya]
            have hay : a.1 < y := lt_of_le_of_ne (le_trans hax hxy) (fun h => hya h.symm)
            have hD : (0:ℚ) < q.1 - a.1 := by linarith
            have hnum : (0:ℚ) ≤ (q.2 - a.2) * (y - a.1) :=
              mul_nonneg (sub_nonneg.2 haq.2) (by linarith)
            have := div_nonneg hnum (le_of_lt hD)
            linarith
        · have hax' : a.1 < x := lt_of_le_of_ne hax (fun h => hxa h.symm)
          have hya : ¬ y = a.1 := fun h => by rw [h] at hxy; linarith
          rw [if_neg hxa, if_neg hya]
          have hD : (0:ℚ) < q.1 - a.1 := by linarith
          have hnum : (q.2 - a.2) * (x - a.1) ≤ (q.2 - a.2) * (y - a.1) :=
            mul_le_mul_of_nonneg_left (by linarith) (sub_nonneg.2 haq.2)
          have hdiv : (q.2 - a.2) * (x - a.1) / (q.1 - a.1) ≤
              (q.2 - a.2) * (y - a.1) / (q.1 - a.1) := by
            rw [div_le_div_iff₀ hD hD]
            nlinarith [mul_le_mul_of_nonneg_right hnum (le_of_lt hD)]
          linarith

theorem np_interp_bounds {xp fp : List ℚ} (x : ℚ) (hxp : xp ≠ []) (hfp : fp ≠ [])
    (hf : ∀ f ∈ fp, 0 ≤ f ∧ f ≤ 1) : 0 ≤ np_interp x xp fp ∧ np_interp x xp fp ≤ 1 := by
  obtain ⟨x0, xs, rfl⟩ := List.exists_cons_of_ne_nil hxp
  obtain ⟨f0, fs, rfl⟩ := List.exists_cons_of_ne_nil hfp
  rw [np_interp]
  split
  · exact hf f0 (by simp)
  · have hx0 : x0 ≤ x := le_of_not_lt (by assumption)
    have hzip : (x0 :: xs).zip (f0 :: fs) = (x0, f0) :: xs.zip fs := rfl
    rw [hzip]
    constructor
    · refine interpGo_lower (x0, f0) (xs.zip fs) x hx0 ?_
      rintro ⟨p1, p2⟩ hp
      rcases List.mem_cons.1 hp with h | h
      · rw [Prod.mk.injEq] at h
        simp only [h.2]
        exact (hf f0 (by simp)).1
      · exact (hf p2 (List.mem_cons_of_mem f0 (List.of_mem_zip h).2)).1
    · refine interpGo_upper (x0, f0) (xs.zip fs) x hx0 ?_
      rintro ⟨p1, p2⟩ hp
      rcases List.mem_cons.1 hp with h | h
      · rw [Prod.mk.injEq] at h
        simp only [h.2]
        exact (hf f0 (by simp)).2
      · exact (hf p2 (List.mem_cons_of_mem f0 (List.of_mem_zip h).2)).2

theorem np_interp_mono {xp fp : List ℚ} {x y : ℚ} (hxy : x ≤ y)
    (hxp : xp.Pairwise (· ≤ ·)) (hfp : fp.Pairwise (· ≤ ·)) :
    np_interp x xp fp ≤ np_interp y xp fp := by
  cases xp with
  | nil => simp [np_interp]
  | cons x0 xs =>
    cases fp with
    | nil => simp [np_interp]
    | cons f0 fs =>
      rw [np_interp, np_interp]
      have hzip : (x0 :: xs).zip (f0 :: fs) = (x0, f0) :: xs.zip fs := rfl
      by_cases hx : x < x0
      · rw [if_pos hx]
        by_cases hy : y < x0
        · rw [if_pos hy]
        · rw [if_neg hy, hzip]
          refine interpGo_lower (x0, f0) (xs.zip fs) y (le_of_not_lt hy) ?_
          rintro ⟨p1, p2⟩ hp
          rcases List.mem_cons.1 hp with h | h
          · rw [Prod.mk.injEq] at h
            simp only [h.2]
            exact le_refl _
          · exact (List.pairwise_cons.1 hfp).1 p2 (List.of_mem_zip h).2
      · have hy : ¬ y < x0 := fun h => hx (lt_of_le_of_lt hxy h)
        rw [if_neg hx, if_neg hy, hzip]
        exact interpGo_mono (x0, f0) (xs.zip fs) x y hxy (le_of_not_lt hx)
          (by rw [← hzip]; exact pairwise_zip hxp hfp)

theorem np_interp_below {xp fp : List ℚ} {x : ℚ} (hxp : xp ≠ []) (hfp : fp ≠ [])
    (hbelow : ∀ v ∈ xp, x < v) :
    np_interp x xp fp = fp.head hfp := by
  obtain ⟨x0, xs, rfl⟩ := List.exists_cons_of_ne_nil hxp
  obtain ⟨f0, fs, rfl⟩ := List.exists_cons_of_ne_nil hfp
  rw [np_interp, if_pos (hbelow x0 (by simp))]
  rfl

theorem zip_getLast?_snd :
    ∀ (l1 l2 : List ℚ), l1.length = l2.length →
      ((l1.zip l2).getLast?.map (fun p => p.2)) = l2.getLast? := by
  intro l1
  induction l1 with
  | nil =>
    intro l2 hlen
    cases l2 with
    | nil => rfl
    | cons b t2 => simp at hlen
  | cons a t1 ih =>
    intro l2 hlen
    cases l2 with
    | nil => simp at hlen
    | cons b t2 =>
      cases t1 with
      | nil =>
        cases t2 with
        | nil => rfl
        | cons d t2' => simp at hlen
      | cons c t1' =>
        cases t2 with
        | nil => simp at hlen
        | cons d t2' =>
          have hz : (a :: c :: t1').zip (b :: d :: t2') =
              (a, b) :: (c :: t1').zip (d :: t2') := rfl
          have hz2 : (c :: t1').zip (d :: t2') = (c, d) :: t1'.zip t2' := rfl
          rw [hz, hz2, List.getLast?_cons_cons, List.getLast?_cons_cons, ← hz2]
          exact ih (d :: t2') (by simpa using hlen)

theorem np_interp_above {xp fp : List ℚ} {x : ℚ} (hxp : xp ≠ []) (hfp : fp ≠ [])
    (habove : ∀ v ∈ xp, v ≤ x) :
    np_interp x xp fp = ((xp.zip fp).getLast?.map (fun p => p.2)).getD 0 := by
  obtain ⟨x0, xs, rfl⟩ := List.exists_cons_of_ne_nil hxp
  obtain ⟨f0, fs, rfl⟩ := List.exists_cons_of_ne_nil hfp
  have hx0 : ¬ x < x0 := not_lt.2 (habove x0 (by simp))
  rw [np_interp, if_neg hx0]
  have hzip : (x0 :: xs).zip (f0 :: fs) = (x0, f0) :: xs.zip fs := rfl
  have hall : ∀ p ∈ (x0, f0) :: xs.zip fs, p.1 ≤ x := by
    rintro ⟨p1, p2⟩ hp
    rcases List.mem_cons.1 hp with h | h
    · rw [Prod.mk.injEq] at h
      simp only [h.1]
      exact habove x0 (by simp)
    · exact habove p1 (List.mem_cons_of_mem x0 (List.of_mem_zip h).1)
  rw [hzip, interpGo_last (x0, f0) (xs.zip fs) x hall, ← hzip]

/-! ## Rank-curve and sorted-sample lemmas -/

theorem ranks_pairwise (n : ℕ) : (ranks n).Pairwise (· ≤ ·) := by
  rw [ranks]
  refine List.Pairwise.map _ ?_ (List.pairwise_lt_range n)
  intro i j hij
  rcases Nat.eq_zero_or_pos n with h0 | hpos
  · simp [h0]
  · have hn : (0:ℚ) < n := by exact_mod_cast hpos
    have hnum : ((i:ℚ) + 1) ≤ ((j:ℚ) + 1) := by
      have : (i:ℚ) ≤ j := by exact_mod_cast hij.le
      linarith
    exact (div_le_div_right hn).2 hnum

theorem ranks_mem_unit (n : ℕ) : ∀ r ∈ ranks n, 0 ≤ r ∧ r ≤ 1 := by
  intro r hr
  rw [ranks] at hr
  obtain ⟨i, hi, rfl⟩ := List.mem_map.1 hr
  rw [List.mem_range] at hi
  have hpos : (0:ℚ) < n := by exact_mod_cast Nat.zero_lt_of_lt hi
  constructor
  · positivity
  · rw [div_le_one hpos]
    have : (i:ℚ) + 1 ≤ n := by exact_mod_cast Nat.succ_le_of_lt hi
    linarith

theorem ranks_length (n : ℕ) : (ranks n).length = n := by
  simp [ranks]

theorem ranks_ne_nil {n : ℕ} (h : 0 < n) : ranks n ≠ [] := by
  intro hnil
  have hlen := ranks_length n
  rw [hnil] at hlen
  simp at hlen
  omega

theorem ranks_head? {n : ℕ} (h : 0 < n) : (ranks n).head? = some (1 / (n : ℚ)) := by
  obtain ⟨n', rfl⟩ := Nat.exists_eq_succ_of_ne_zero (Nat.pos_iff_ne_zero.1 h)
  rw [ranks, List.range_succ_eq_map]
  simp

theorem ranks_head {n : ℕ} (hne : ranks n ≠ []) :
    (ranks n).head hne = 1 / (n : ℚ) := by
  have hn : 0 < n := by
    cases n with
    | zero => exact absurd rfl hne
    | succ n' => exact Nat.succ_pos n'
  have h2 := ranks_head? hn
  rw [List.head?_eq_head hne, Option.some.injEq] at h2
  exact h2

theorem ranks_getLast? {n : ℕ} (h : 0 < n) : (ranks n).getLast? = some 1 := by
  obtain ⟨n', rfl⟩ := Nat.exists_eq_succ_of_ne_zero (Nat.pos_iff_ne_zero.1 h)
  simp only [ranks, List.getLast?_map, List.range_succ, List.getLast?_concat]
  have hn : ((n' + 1 : ℕ) : ℚ) ≠ 0 := by positivity
  rw [Option.map_some']
  congr 1
  push_cast
  field_simp

theorem sortedRT_pairwise (s : List ℚ) : (sortedRT s).Pairwise (· ≤ ·) :=
  List.sorted_insertionSort (· ≤ ·) s

theorem sortedRT_perm (s : List ℚ) : (sortedRT s).Perm s :=
  List.perm_insertionSort (· ≤ ·) s

theorem sortedRT_length (s : List ℚ) : (sortedRT s).length = s.length :=
  (sortedRT_perm s).length_eq

theorem sortedRT_ne_nil {s : List ℚ} (h : s ≠ []) : sortedRT s ≠ [] := by
  intro hnil
  exact h (List.eq_nil_of_length_eq_zero (by rw [← sortedRT_length s, hnil]; rfl))

theorem sortedRT_mem {s : List ℚ} {x : ℚ} : x ∈ sortedRT s ↔ x ∈ s :=
  (sortedRT_perm s).mem_iff

/-! ## ECDF lemmas and Boolean monotonicity -/

theorem ecdfOnGrid_length (s g : List ℚ) : (ecdfOnGrid s g).length = g.length := by
  simp [ecdfOnGrid]

theorem ecdfOnGrid_mem_unit {s : List ℚ} (hs : s ≠ []) (g : List ℚ) :
    ∀ v ∈ ecdfOnGrid s g, 0 ≤ v ∧ v ≤ 1 := by
  intro v hv
  rw [ecdfOnGrid] at hv
  obtain ⟨x, _, rfl⟩ := List.mem_map.1 hv
  have hlen : 0 < s.length := List.length_pos.2 hs
  exact np_interp_bounds x (sortedRT_ne_nil hs) (ranks_ne_nil hlen) (ranks_mem_unit _)

theorem nondecreasing_cons_cons (x y : ℚ) (l : List ℚ) :
    nondecreasing (x :: y :: l) = (decide (x ≤ y) && nondecreasing (y :: l)) := rfl

theorem nondecreasing_map_of_monotone (f : ℚ → ℚ) (hf : ∀ x y, x ≤ y → f x ≤ f y) :
    ∀ l : List ℚ, nondecreasing l = true → nondecreasing (l.map f) = true := by
  intro l
  induction l with
  | nil => intro _; rfl
  | cons a t ih =>
    cases t with
    | nil => intro _; rfl
    | cons b r =>
      intro h
      rw [nondecreasing_cons_cons, Bool.and_eq_true] at h
      rw [List.map_cons, List.map_cons, nondecreasing_cons_cons, Bool.and_eq_true]
      refine ⟨decide_eq_true (hf a b (of_decide_eq_true h.1)), ?_⟩
      have := ih h.2
      rwa [List.map_cons] at this

theorem ecdfOnGrid_nondecreasing (s : List ℚ) {g : List ℚ}
    (hg : nondecreasing g = true) : nondecreasing (ecdfOnGrid s g) = true := by
  rw [ecdfOnGrid]
  refine nondecreasing_map_of_monotone _ ?_ g hg
  intro x y hxy
  exact np_interp_mono hxy (sortedRT_pairwise s) (ranks_pairwise _)

theorem nondecreasing_replicate (n : ℕ) (x : ℚ) :
    nondecreasing (List.replicate n x) = true := by
  induction n with
  | zero => rfl
  | succ k ih =>
    cases k with
    | zero => rfl
    | succ k' =>
      rw [List.replicate_succ, List.replicate_succ, nondecreasing_cons_cons,
        Bool.and_eq_true]
      refine ⟨decide_eq_true (le_refl x), ?_⟩
      rw [← List.replicate_succ]
      exact ih

theorem nondecreasing_zipWith_add :
    ∀ (v w : List ℚ), nondecreasing v = true → nondecreasing w = true →
      nondecreasing (List.zipWith (· + ·) v w) = true := by
  intro v
  induction v with
  | nil => intro w _ _; rfl
  | cons a t ih =>
    intro w hv hw
    cases w with
    | nil => rfl
    | cons b u =>
      cases t with
      | nil => rfl
      | cons a' t' =>
        cases u with
        | nil => rfl
        | cons b' u' =>
          rw [List.zipWith_cons_cons, List.zipWith_cons_cons, nondecreasing_cons_cons,
            Bool.and_eq_true]
          rw [nondecreasing_cons_cons, Bool.and_eq_true] at hv hw
          refine ⟨decide_eq_true (add_le_add (of_decide_eq_true hv.1) (of_decide_eq_true hw.1)), ?_⟩
          have := ih (b' :: u') hv.2 hw.2
          rwa [List.zipWith_cons_cons] at this

theorem mem_zipWith_add :
    ∀ {v w : List ℚ} {x : ℚ}, x ∈ List.zipWith (· + ·) v w →
      ∃ a ∈ v, ∃ b ∈ w, x = a + b := by
  intro v
  induction v with
  | nil => intro w x hx; simp at hx
  | cons a t ih =>
    intro w x hx
    cases w with
    | nil => simp at hx
    | cons b u =>
      rw [List.zipWith_cons_cons] at hx
      rcases List.mem_cons.1 hx with h | h
      · exact ⟨a, by simp, b, by simp, h⟩
      · obtain ⟨a', ha', b', hb', rfl⟩ := ih h
        exact ⟨a', List.mem_cons_of_mem a ha', b', List.mem_cons_of_mem b hb', rfl⟩

theorem foldr_zipWith_nondecreasing :
    ∀ (ls : List (List ℚ)) (base : List ℚ),
      (∀ v ∈ ls, nondecreasing v = true) → nondecreasing base = true →
      nondecreasing (ls.foldr (List.zipWith (· + ·)) base) = true := by
  intro ls
  induction ls with
  | nil => intro base _ hb; exact hb
  | cons v ls' ih =>
    intro base hall hb
    rw [List.foldr_cons]
    exact nondecreasing_zipWith_add _ _ (hall v (by simp))
      (ih base (fun w hw => hall w (List.mem_cons_of_mem v hw)) hb)

theorem foldr_zipWith_bounds :
    ∀ (ls : List (List ℚ)) (base : List ℚ),
      (∀ v ∈ ls, ∀ x ∈ v, 0 ≤ x ∧ x ≤ 1) → (∀ x ∈ base, x = 0) →
      ∀ x ∈ ls.foldr (List.zipWith (· + ·)) base, 0 ≤ x ∧ x ≤ (ls.length : ℚ) := by
  intro ls
  induction ls with
  | nil =>
    intro base _ hb x hx
    rw [List.foldr_nil] at hx
    rw [hb x hx]
    exact ⟨le_refl 0, by simp⟩
  | cons v ls' ih =>
    intro base hall hb x hx
    rw [List.foldr_cons] at hx
    obtain ⟨a, ha, b, hbmem, rfl⟩ := mem_zipWith_add hx
    have hav := hall v (by simp) a ha
    have hbb := ih base (fun w hw => hall w (List.mem_cons_of_mem v hw)) hb b hbmem
    constructor
    · linarith [hav.1, hbb.1]
    · have : (ls'.length : ℚ) + 1 = ((v :: ls').length : ℚ) := by
        push_cast [List.length_cons]
        ring
      linarith [hav.2, hbb.2]

theorem listAvg_nondecreasing (ls : List (List ℚ)) (n : ℕ)
    (h : ∀ v ∈ ls, nondecreasing v = true) : nondecreasing (listAvg ls n) = true := by
  rw [listAvg]
  refine nondecreasing_map_of_monotone _ ?_ _
    (foldr_zipWith_nondecreasing ls _ h (nondecreasing_replicate n 0))
  intro x y hxy
  rcases eq_or_lt_of_le (Nat.cast_nonneg (α := ℚ) ls.length) with h0 | hpos
  · rw [← h0, div_zero, div_zero]
  · exact (div_le_div_right hpos).2 hxy

theorem listAvg_mem_unit (ls : List (List ℚ)) (n : ℕ) (hne : ls ≠ [])
    (h : ∀ v ∈ ls, ∀ x ∈ v, 0 ≤ x ∧ x ≤ 1) :
    ∀ x ∈ listAvg ls n, 0 ≤ x ∧ x ≤ 1 := by
  intro x hx
  rw [listAvg] at hx
  obtain ⟨y, hy, rfl⟩ := List.mem_map.1 hx
  have hbase : ∀ z ∈ List.replicate n (0:ℚ), z = 0 := by
    intro z hz
    exact List.eq_of_mem_replicate hz
  have hyb := foldr_zipWith_bounds ls _ h hbase y hy
  have hlen : (0:ℚ) < ls.length := by
    have : 0 < ls.length := List.length_pos.2 hne
    exact_mod_cast this
  constructor
  · exact div_nonneg hyb.1 (le_of_lt hlen)
  · rw [div_le_one hlen]
    exact hyb.2

/-! ## Grid, min/max, and race-model library lemmas -/

theorem nondecreasing_of_pairwise : ∀ l : List ℚ, l.Pairwise (· ≤ ·) →
    nondecreasing l = true := by
  intro l
  induction l with
  | nil => intro _; rfl
  | cons a t ih =>
    intro h
    cases t with
    | nil => rfl
    | cons b r =>
      have h' := List.pairwise_cons.1 h
      rw [nondecreasing_cons_cons, Bool.and_eq_true]
      exact ⟨decide_eq_true (h'.1 b (by simp)), ih h'.2⟩

theorem linspace_length (a b : ℚ) (n : ℕ) : (linspace a b n).length = n := by
  simp [linspace]

theorem linspace_pairwise (a b : ℚ) (n : ℕ) (hab : a ≤ b) :
    (linspace a b n).Pairwise (· ≤ ·) := by
  rw [linspace]
  refine List.Pairwise.map _ ?_ (List.pairwise_lt_range n)
  intro i j hij
  have hnum : (b - a) * (i : ℚ) ≤ (b - a) * (j : ℚ) :=
    mul_le_mul_of_nonneg_left (by exact_mod_cast hij.le) (by linarith)
  rcases eq_or_lt_of_le (Nat.cast_nonneg (α := ℚ) (n - 1)) with h0 | hpos
  · rw [← h0, div_zero, div_zero]
  · have := (div_le_div_right hpos).2 hnum
    linarith

theorem linspace_nondecreasing (a b : ℚ) (n : ℕ) (hab : a ≤ b) :
    nondecreasing (linspace a b n) = true :=
  nondecreasing_of_pairwise _ (linspace_pairwise a b n hab)

theorem foldl_min_le : ∀ (l : List ℚ) (a : ℚ), l.foldl min a ≤ a := by
  intro l
  induction l with
  | nil => intro a; exact le_refl a
  | cons x t ih =>
    intro a
    rw [List.foldl_cons]
    exact le_trans (ih (min a x)) (min_le_left a x)

theorem le_foldl_max : ∀ (l : List ℚ) (a : ℚ), a ≤ l.foldl max a := by
  intro l
  induction l with
  | nil => intro a; exact le_refl a
  | cons x t ih =>
    intro a
    rw [List.foldl_cons]
    exact le_trans (le_max_left a x) (ih (max a x))

theorem listMin_le_listMax {l : List ℚ} (h : l ≠ []) : listMin l ≤ listMax l := by
  obtain ⟨a, t, rfl⟩ := List.exists_cons_of_ne_nil h
  rw [listMin, listMax]
  exact le_trans (foldl_min_le t a) (le_foldl_max t a)

theorem clip01_mem (x : ℚ) : 0 ≤ clip01 x ∧ clip01 x ≤ 1 := by
  rw [clip01]
  constructor
  · exact le_min (le_max_right x 0) (by norm_num)
  · exact min_le_right _ 1

theorem calculate_race_model_mem_unit {m : ModelType} {ea ev g r : List ℚ}
    (h : calculate_race_model m ea ev g = some r) : ∀ x ∈ r, 0 ≤ x ∧ x ≤ 1 := by
  intro x hx
  cases m <;> simp only [calculate_race_model, Option.some.injEq] at h
  case other => exact absurd h (by simp)
  all_goals
    subst h
    obtain ⟨y, _, rfl⟩ := List.mem_map.1 hx
    exact clip01_mem y

theorem calculate_race_model_length {m : ModelType} {ea ev g r : List ℚ} {n : ℕ}
    (h : calculate_race_model m ea ev g = some r) (hea : ea.length = n)
    (hev : ev.length = n) (hg : g.length = n) : r.length = n := by
  cases m <;> simp only [calculate_race_model, Option.some.injEq] at h
  case other => exact absurd h (by simp)
  case coactivation phi =>
    subst h
    simp [hg]
  all_goals
    subst h
    simp [List.length_zipWith, hea, hev]

theorem calculate_race_model_isSome {m : ModelType} (hm : m.known = true)
    (ea ev g : List ℚ) : (calculate_race_model m ea ev g).isSome = true := by
  cases m <;> simp [calculate_race_model]
  case other => exact absurd hm (by simp [ModelType.known])

theorem participantCurves_mem_spec {m : ModelType} {data : List Trial}
    {grid : List ℚ} {c : PCurves} (hc : c ∈ participantCurves m data grid) :
    ∃ sa sv sav : List ℚ, 2 ≤ sa.length ∧ 2 ≤ sv.length ∧ 2 ≤ sav.length ∧
      c.ea = ecdfOnGrid sa grid ∧ c.ev = ecdfOnGrid sv grid ∧
      c.eav = ecdfOnGrid sav grid ∧
      calculate_race_model m c.ea c.ev grid = some c.race ∧
      c.viol = List.zipWith (fun o q => max (o - q) 0) c.eav c.race := by
  rw [participantCurves] at hc
  obtain ⟨p, _, hp⟩ := List.mem_filterMap.1 hc
  simp only [] at hp
  by_cases hguard : colRT (data.filter (fun t => t.participant == p)) 1 = [] ∨
      colRT (data.filter (fun t => t.participant == p)) 2 = [] ∨
      colRT (data.filter (fun t => t.participant == p)) 3 = [] ∨
      (colRT (data.filter (fun t => t.participant == p)) 1).length < 2 ∨
      (colRT (data.filter (fun t => t.participant == p)) 2).length < 2 ∨
      (colRT (data.filter (fun t => t.participant == p)) 3).length < 2
  · rw [if_pos hguard] at hp
    exact absurd hp (by simp)
  · rw [if_neg hguard] at hp
    push_neg at hguard
    obtain ⟨-, -, -, h2a, h2v, h2av⟩ := hguard
    rcases hrm : calculate_race_model m
        (ecdfOnGrid (colRT (data.filter (fun t => t.participant == p)) 1) grid)
        (ecdfOnGrid (colRT (data.filter (fun t => t.participant == p)) 2) grid)
        grid with _ | race
    · rw [hrm] at hp
      exact absurd hp (by simp)
    · rw [hrm] at hp
      rw [Option.some.injEq] at hp
      subst hp
      refine ⟨_, _, _, h2a, h2v, h2av, rfl, rfl, rfl, hrm, rfl⟩

theorem foldr_zipWith_length {n : ℕ} :
    ∀ (ls : List (List ℚ)) (base : List ℚ), (∀ v ∈ ls, v.length = n) →
      base.length = n → (ls.foldr (List.zipWith (· + ·)) base).length = n := by
  intro ls
  induction ls with
  | nil => intro base _ hb; exact hb
  | cons v ls' ih =>
    intro base hall hb
    rw [List.foldr_cons, List.length_zipWith,
      ih base (fun w hw => hall w (List.mem_cons_of_mem v hw)) hb,
      hall v (by simp)]
    exact Nat.min_self n

theorem listAvg_length {n : ℕ} (ls : List (List ℚ)) (h : ∀ v ∈ ls, v.length = n) :
    (listAvg ls n).length = n := by
  rw [listAvg, List.length_map]
  exact foldr_zipWith_length ls _ h (List.length_replicate n 0)

theorem participantCurves_lengths {m : ModelType} {data : List Trial}
    {grid : List ℚ} {c : PCurves} (hc : c ∈ participantCurves m data grid) :
    c.ea.length = grid.length ∧ c.ev.length = grid.length ∧
      c.eav.length = grid.length ∧ c.race.length = grid.length ∧
      c.viol.length = grid.length := by
  obtain ⟨sa, sv, sav, _, _, _, hea, hev, heav, hrm, hviol⟩ := participantCurves_mem_spec hc
  have h1 : c.ea.length = grid.length := by rw [hea, ecdfOnGrid_length]
  have h2 : c.ev.length = grid.length := by rw [hev, ecdfOnGrid_length]
  have h3 : c.eav.length = grid.length := by rw [heav, ecdfOnGrid_length]
  have h4 : c.race.length = grid.length := calculate_race_model_length hrm h1 h2 rfl
  refine ⟨h1, h2, h3, h4, ?_⟩
  rw [hviol, List.length_zipWith, h3, h4]
  exact Nat.min_self _

theorem participantCurves_ecdf_unit {m : ModelType} {data : List Trial}
    {grid : List ℚ} {c : PCurves} (hc : c ∈ participantCurves m data grid) :
    (∀ x ∈ c.ea, 0 ≤ x ∧ x ≤ 1) ∧ (∀ x ∈ c.ev, 0 ≤ x ∧ x ≤ 1) ∧
      (∀ x ∈ c.eav, 0 ≤ x ∧ x ≤ 1) := by
  obtain ⟨sa, sv, sav, h2a, h2v, h2av, hea, hev, heav, -, -⟩ := participantCurves_mem_spec hc
  have hane : sa ≠ [] := by intro h; rw [h] at h2a; simp at h2a
  have hvne : sv ≠ [] := by intro h; rw [h] at h2v; simp at h2v
  have havne : sav ≠ [] := by intro h; rw [h] at h2av; simp at h2av
  exact ⟨hea ▸ ecdfOnGrid_mem_unit hane grid, hev ▸ ecdfOnGrid_mem_unit hvne grid,
    heav ▸ ecdfOnGrid_mem_unit havne grid⟩

theorem participantCurves_ecdf_nondecreasing {m : ModelType} {data : List Trial}
    {grid : List ℚ} {c : PCurves} (hc : c ∈ participantCurves m data grid)
    (hg : nondecreasing grid = true) :
    nondecreasing c.ea = true ∧ nondecreasing c.ev = true ∧
      nondecreasing c.eav = true := by
  obtain ⟨sa, sv, sav, -, -, -, hea, hev, heav, -, -⟩ := participantCurves_mem_spec hc
  exact ⟨hea ▸ ecdfOnGrid_nondecreasing sa hg, hev ▸ ecdfOnGrid_nondecreasing sv hg,
    heav ▸ ecdfOnGrid_nondecreasing sav hg⟩

/-! ## Claim theorems -/

/-- Claim C1: whenever calculate_race_violation returns a result, in either
mode, the scalar summary it returns is the arithmetic mean (NaN-valued, i.e.
none, on an empty window) of the violation-magnitude array restricted to
indices [floor(N lo/100), floor(N hi/100)), where the violation magnitude is
max(observed_AV_CDF - predicted_CDF, 0) per grid point (averaged across
qualifying participants in per-participant mode) and N, the grid length, is
500. -/
theorem C1_scalar_summary (m : ModelType) (d : List Trial) (lo hi : ℚ) (pp : Bool) :
    ((calculate_race_violation m d (lo, hi) pp).map (fun r => r.meanViolation)
      = (violationArray m d pp).map
          (fun V => npMean (pySlice V (pctIdx V.length lo) (pctIdx V.length hi))))
    ∧ ((violationArray m d pp).all (fun V => V.length == 500)) = true
    ∧ ((calculate_race_violation m d (lo, hi) pp).all
        (fun r => r.commonRts.length == 500)) = true := by
  cases pp
  · -- pooled mode
    by_cases h1 : colRT d 1 = [] ∨ colRT d 2 = [] ∨ colRT d 3 = []
    · simp [calculate_race_violation, violationArray, h1]
    · by_cases h2 : min (listMin (colRT d 1)) (min (listMin (colRT d 2)) (listMin (colRT d 3)))
          = max (listMax (colRT d 1)) (max (listMax (colRT d 2)) (listMax (colRT d 3)))
      · simp [calculate_race_violation, violationArray, h1, h2]
      · rcases hrm : calculate_race_model m
            (ecdfOnGrid (colRT d 1) (linspace
              (min (listMin (colRT d 1)) (min (listMin (colRT d 2)) (listMin (colRT d 3))))
              (max (listMax (colRT d 1)) (max (listMax (colRT d 2)) (listMax (colRT d 3)))) 500))
            (ecdfOnGrid (colRT d 2) (linspace
              (min (listMin (colRT d 1)) (min (listMin (colRT d 2)) (listMin (colRT d 3))))
              (max (listMax (colRT d 1)) (max (listMax (colRT d 2)) (listMax (colRT d 3)))) 500))
            (linspace
              (min (listMin (colRT d 1)) (min (listMin (colRT d 2)) (listMin (colRT d 3))))
              (max (listMax (colRT d 1)) (max (listMax (colRT d 2)) (listMax (colRT d 3)))) 500)
          with _ | race
        · simp [calculate_race_violation, violationArray, h1, h2, hrm]
        · have hracelen : race.length = 500 :=
            calculate_race_model_length hrm (by rw [ecdfOnGrid_length, linspace_length])
              (by rw [ecdfOnGrid_length, linspace_length]) (by rw [linspace_length])
          refine ⟨?_, ?_, ?_⟩
          · simp [calculate_race_violation, violationArray, h1, h2, hrm]
          · simp [calculate_race_violation, violationArray, h1, h2, hrm,
              List.length_zipWith, ecdfOnGrid_length, linspace_length, hracelen]
          · simp [calculate_race_violation, violationArray, h1, h2, hrm, linspace_length]
  · -- per-participant mode
    by_cases h1 : d.map (fun t => t.rt) = []
    · simp [calculate_race_violation, violationArray, h1]
    · by_cases h2 : participantCurves m d
          (linspace (listMin (d.map (fun t => t.rt))) (listMax (d.map (fun t => t.rt))) 500) = []
      · simp [calculate_race_violation, violationArray, h1, h2]
      · have hlen : (listAvg ((participantCurves m d
            (linspace (listMin (d.map (fun t => t.rt))) (listMax (d.map (fun t => t.rt)))
              500)).map (fun c => c.viol)) 500).length = 500 := by
          refine listAvg_length _ ?_
          intro v hv
          obtain ⟨c, hc, rfl⟩ := List.mem_map.1 hv
          rw [(participantCurves_lengths hc).2.2.2.2, linspace_length]
        refine ⟨?_, ?_, ?_⟩
        · simp [calculate_race_violation, violationArray, h1, h2]
        · simp [calculate_race_violation, violationArray, h1, h2, hlen]
        · simp [calculate_race_violation, violationArray, h1, h2, linspace_length]

theorem pySlice_self (l : List ℚ) (k : ℕ) : pySlice l k k = [] := by
  rw [pySlice]
  exact List.drop_eq_nil_of_le (le_trans (List.length_take_le k l) (le_refl k))

theorem meanViolation_empty_window {m : ModelType} {d : List Trial} {lo : ℚ}
    {pp : Bool} {r : RaceResult}
    (h : calculate_race_violation m d (lo, lo) pp = some r) : r.meanViolation = none := by
  simp only [calculate_race_violation] at h
  split at h
  · -- per-participant branch
    split at h
    · exact absurd h (by simp)
    · split at h
      · exact absurd h (by simp)
      · rw [Option.some.injEq] at h
        rw [← h]
        rw [pySlice_self, npMean]
        rfl
  · -- pooled branch
    split at h
    · exact absurd h (by simp)
    · split at h
      · exact absurd h (by simp)
      · split at h
        · exact absurd h (by simp)
        · rw [Option.some.injEq] at h
          rw [← h]
          rw [pySlice_self, npMean]
          rfl

set_option maxRecDepth 4000

/-- Claim C2 (counterexample): in pooled mode, data in which the Audio
modality has exactly one trial still yields a result, not None, contrary to
the claim that fewer than 2 trials in a needed modality gives None. -/
theorem C2_cex : (colRT dC2 1).length = 1 ∧
    calculate_race_violation .standard dC2 (0, 100) false ≠ none := by
  constructor
  · with_unfolding_all rfl
  · intro hn
    have h : (calculate_race_violation .standard dC2 (0, 100) false).isSome = true := by
      with_unfolding_all rfl
    rw [hn] at h
    exact Bool.noConfusion h

/-- Claim C2 (amended): with a known model selected, the engine returns None
exactly when — pooled mode — a modality has zero usable trials or the pooled
RT range is degenerate (min = max), or — per-participant mode — the data is
empty or zero participants pass the coverage check (at least 2 trials in
every modality, i.e. the per-participant loop collects nothing).  The
fewer-than-2-trials test is applied per participant only; pooled mode accepts
single-trial modalities.  The embedding is a total function, so no exception
is ever raised. -/
theorem C2_none_characterization (m : ModelType) (d : List Trial) (lo hi : ℚ)
    (hm : m.known = true) :
    (calculate_race_violation m d (lo, hi) false = none ↔
      (colRT d 1 = [] ∨ colRT d 2 = [] ∨ colRT d 3 = [] ∨
        min (listMin (colRT d 1)) (min (listMin (colRT d 2)) (listMin (colRT d 3)))
          = max (listMax (colRT d 1)) (max (listMax (colRT d 2)) (listMax (colRT d 3)))))
    ∧ (calculate_race_violation m d (lo, hi) true = none ↔
      (d = [] ∨ participantCurves m d
        (linspace (listMin (d.map (fun t => t.rt)))
          (listMax (d.map (fun t => t.rt))) 500) = [])) := by
  constructor
  · by_cases h1 : colRT d 1 = [] ∨ colRT d 2 = [] ∨ colRT d 3 = []
    · simp only [calculate_race_violation, if_pos h1, true_iff]
      tauto
    · by_cases h2 : min (listMin (colRT d 1)) (min (listMin (colRT d 2)) (listMin (colRT d 3)))
          = max (listMax (colRT d 1)) (max (listMax (colRT d 2)) (listMax (colRT d 3)))
      · simp [calculate_race_violation, h1, h2]
      · rcases hrm : calculate_race_model m
            (ecdfOnGrid (colRT d 1) (linspace
              (min (listMin (colRT d 1)) (min (listMin (colRT d 2)) (listMin (colRT d 3))))
              (max (listMax (colRT d 1)) (max (listMax (colRT d 2)) (listMax (colRT d 3)))) 500))
            (ecdfOnGrid (colRT d 2) (linspace
              (min (listMin (colRT d 1)) (min (listMin (colRT d 2)) (listMin (colRT d 3))))
              (max (listMax (colRT d 1)) (max (listMax (colRT d 2)) (listMax (colRT d 3)))) 500))
            (linspace
              (min (listMin (colRT d 1)) (min (listMin (colRT d 2)) (listMin (colRT d 3))))
              (max (listMax (colRT d 1)) (max (listMax (colRT d 2)) (listMax (colRT d 3)))) 500)
          with _ | race
        · have hsome := calculate_race_model_isSome hm
            (ecdfOnGrid (colRT d 1) (linspace
              (min (listMin (colRT d 1)) (min (listMin (colRT d 2)) (listMin (colRT d 3))))
              (max (listMax (colRT d 1)) (max (listMax (colRT d 2)) (listMax (colRT d 3)))) 500))
            (ecdfOnGrid (colRT d 2) (linspace
              (min (listMin (colRT d 1)) (min (listMin (colRT d 2)) (listMin (colRT d 3))))
              (max (listMax (colRT d 1)) (max (listMax (colRT d 2)) (listMax (colRT d 3)))) 500))
            (linspace
              (min (listMin (colRT d 1)) (min (listMin (colRT d 2)) (listMin (colRT d 3))))
              (max (listMax (colRT d 1)) (max (listMax (colRT d 2)) (listMax (colRT d 3)))) 500)
          rw [hrm] at hsome
          exact absurd hsome (by simp)
        · simp [calculate_race_violation, h1, h2, hrm]
  · by_cases h1 : d = []
    · simp [calculate_race_violation, h1, participantCurves, uniqueKeep]
    · by_cases h2 : participantCurves m d
          (linspace (listMin (d.map (fun t => t.rt)))
            (listMax (d.map (fun t => t.rt))) 500) = []
      · simp [calculate_race_violation, h1, h2]
      · simp [calculate_race_violation, h1, h2]

/-- Witness for C2_none_characterization at concrete inputs. -/
theorem C2_none_characterization_witness :
    (calculate_race_violation .standard [] (0, 100) false = none ↔
      (colRT [] 1 = [] ∨ colRT [] 2 = [] ∨ colRT [] 3 = [] ∨
        min (listMin (colRT [] 1)) (min (listMin (colRT [] 2)) (listMin (colRT [] 3)))
          = max (listMax (colRT [] 1)) (max (listMax (colRT [] 2)) (listMax (colRT [] 3)))))
    ∧ (calculate_race_violation .standard [] (0, 100) true = none ↔
      (([] : List Trial) = [] ∨ participantCurves .standard []
        (linspace (listMin (List.map (fun t => t.rt) ([] : List Trial)))
          (listMax (List.map (fun t => t.rt) ([] : List Trial))) 500) = [])) :=
  C2_none_characterization .standard [] 0 100 rfl

theorem commonRts_length {m : ModelType} {d : List Trial} {pr : ℚ × ℚ}
    {pp : Bool} {r : RaceResult}
    (h : calculate_race_violation m d pr pp = some r) : r.commonRts.length = 500 := by
  simp only [calculate_race_violation] at h
  split at h
  · split at h
    · exact absurd h (by simp)
    · split at h
      · exact absurd h (by simp)
      · rw [Option.some.injEq] at h
        rw [← h]
        exact linspace_length _ _ 500
  · split at h
    · exact absurd h (by simp)
    · split at h
      · exact absurd h (by simp)
      · split at h
        · exact absurd h (by simp)
        · rw [Option.some.injEq] at h
          rw [← h]
          exact linspace_length _ _ 500

/-- Claim C3 (counterexample): for the two-point sample [2, 4], the grid
point 1 lies strictly below the sample minimum, yet the interpolated ECDF
there is 1/2 (the first rank), not 0 as the claim asserts. -/
theorem C3_cex : ecdfOnGrid [(2:ℚ), 4] [1] = [1/2] ∧ ecdfOnGrid [(2:ℚ), 4] [1] ≠ [0] := by
  constructor
  · with_unfolding_all rfl
  · intro h
    have h1 : ecdfOnGrid [(2:ℚ), 4] [1] = [1/2] := by with_unfolding_all rfl
    rw [h1] at h
    rw [List.cons.injEq] at h
    exact absurd h.1 (by norm_num)

/-- Claim C3 (amended): the engine ECDF is np.interp of the rank curve
(i+1)/n over the sorted sample onto the grid; grid points strictly below the
sample minimum clamp to the FIRST rank 1/n (np.interp's left fill, not 0),
and grid points strictly above the sample maximum clamp to 1. -/
theorem C3_ecdf_clamps (s g : List ℚ) (x : ℚ) (h2 : 2 ≤ s.length) :
    ecdfOnGrid s g = g.map (fun t => np_interp t (sortedRT s) (ranks s.length))
    ∧ ((∀ y ∈ s, x < y) → np_interp x (sortedRT s) (ranks s.length) = 1 / (s.length : ℚ))
    ∧ ((∀ y ∈ s, y < x) → np_interp x (sortedRT s) (ranks s.length) = 1) := by
  have hsne : s ≠ [] := by
    intro h
    rw [h] at h2
    simp at h2
  have hlen : 0 < s.length := List.length_pos.2 hsne
  refine ⟨rfl, ?_, ?_⟩
  · intro hbelow
    rw [np_interp_below (sortedRT_ne_nil hsne) (ranks_ne_nil hlen)
      (fun v hv => hbelow v (sortedRT_mem.1 hv))]
    rw [ranks_head]
  · intro habove
    rw [np_interp_above (sortedRT_ne_nil hsne) (ranks_ne_nil hlen)
      (fun v hv => le_of_lt (habove v (sortedRT_mem.1 hv)))]
    rw [zip_getLast?_snd _ _ (by rw [sortedRT_length, ranks_length])]
    rw [ranks_getLast? hlen]
    rfl

/-- Witness for C3_ecdf_clamps at the concrete sample [2, 4]. -/
theorem C3_ecdf_clamps_witness :
    np_interp 1 (sortedRT [(2:ℚ), 4]) (ranks ([(2:ℚ), 4]).length)
      = 1 / ((([(2:ℚ), 4]).length : ℕ) : ℚ)
    ∧ np_interp 5 (sortedRT [(2:ℚ), 4]) (ranks ([(2:ℚ), 4]).length) = 1 :=
  ⟨(C3_ecdf_clamps [(2:ℚ), 4] [] 1 (by decide)).2.1 (by decide),
   (C3_ecdf_clamps [(2:ℚ), 4] [] 5 (by decide)).2.2 (by decide)⟩

/-- Claim C4: the five model variants compute exactly the documented
formulas pointwise over the grid (the Coactivation curve ignores the A and V
ECDFs entirely), every returned curve is the clip of the formula to [0,1],
and hence every returned predicted value lies in [0,1] for all parameter
values. -/
theorem C4_race_model_library (phi : ℚ → ℚ) (gamma alpha beta lam : ℚ)
    (ea ev g : List ℚ) :
    calculate_race_model .standard ea ev g
      = some ((List.zipWith (fun a v => 1 - (1 - a) * (1 - v)) ea ev).map clip01)
    ∧ calculate_race_model .miller ea ev g
      = some ((List.zipWith (fun a v => min (a + v) 1) ea ev).map clip01)
    ∧ calculate_race_model (.coactivation phi) ea ev g = some ((g.map phi).map clip01)
    ∧ (∀ ea' ev' : List ℚ, calculate_race_model (.coactivation phi) ea' ev' g
        = calculate_race_model (.coactivation phi) ea ev g)
    ∧ calculate_race_model (.pir gamma) ea ev g
      = some ((List.zipWith
          (fun a v => (1 - (1 - a) * (1 - v)) + gamma * min a v) ea ev).map clip01)
    ∧ calculate_race_model (.mre alpha beta lam) ea ev g
      = some ((List.zipWith
          (fun a v => alpha * a + beta * v + lam * (a * v)) ea ev).map clip01)
    ∧ ∀ (m : ModelType) (r : List ℚ), calculate_race_model m ea ev g = some r →
        ∀ x ∈ r, 0 ≤ x ∧ x ≤ 1 := by
  refine ⟨rfl, rfl, rfl, fun ea' ev' => rfl, rfl, rfl, ?_⟩
  intro m r h
  exact calculate_race_model_mem_unit h

/-- Witness for C4_race_model_library: the standard model on one-point
ECDFs, bounds checked at its single curve point. -/
theorem C4_race_model_library_witness :
    0 ≤ clip01 (1 - (1 - (0:ℚ)) * (1 - 1)) ∧ clip01 (1 - (1 - (0:ℚ)) * (1 - 1)) ≤ 1 :=
  (C4_race_model_library id 0 0 0 0 [(0:ℚ)] [(1:ℚ)] []).2.2.2.2.2.2 .standard _ rfl
    (clip01 (1 - (1 - (0:ℚ)) * (1 - 1))) (by with_unfolding_all decide)

/-- Claim C5 (counterexample): participant 2 is skipped by the coverage
check (only participant 1 contributes curves), yet removing participant 2's
single trial changes the shared grid's upper bound from 1000 to 160 — a
skipped participant's trials DO affect the shared grid's bounds. -/
theorem C5_cex :
    (participantCurves .standard dC5a
      (linspace 100 1000 500)).length = 1
    ∧ (calculate_race_violation .standard dC5a (0, 100) true).map
        (fun r => r.commonRts.getLast?) = some (some 1000)
    ∧ (calculate_race_violation .standard dC5b (0, 100) true).map
        (fun r => r.commonRts.getLast?) = some (some 160) := by
  refine ⟨?_, ?_, ?_⟩ <;> with_unfolding_all rfl

/-- Claim C5 (amended): in per-participant mode every qualifying participant
is evaluated on one shared 500-point grid whose bounds come from ALL
reaction times of the filtered data — including trials of participants that
fail the coverage check — and the returned curves are the arithmetic
averages over exactly the qualifying participants, so failing participants
contribute nothing to the curves (but their trials do move the grid
bounds). -/
theorem C5_shared_grid (m : ModelType) (d : List Trial) (lo hi : ℚ) :
    ((calculate_race_violation m d (lo, hi) true).all fun r => decide
      (r.commonRts = linspace (listMin (d.map (fun t => t.rt)))
          (listMax (d.map (fun t => t.rt))) 500
      ∧ r.ecdfA = listAvg ((participantCurves m d r.commonRts).map (fun c => c.ea)) 500
      ∧ r.ecdfV = listAvg ((participantCurves m d r.commonRts).map (fun c => c.ev)) 500
      ∧ r.ecdfAV = listAvg ((participantCurves m d r.commonRts).map (fun c => c.eav)) 500
      ∧ r.raceCurve = listAvg ((participantCurves m d r.commonRts).map (fun c => c.race)) 500))
      = true := by
  by_cases h1 : d.map (fun t => t.rt) = []
  · simp [calculate_race_violation, h1]
  · by_cases h2 : participantCurves m d
        (linspace (listMin (d.map (fun t => t.rt)))
          (listMax (d.map (fun t => t.rt))) 500) = []
    · simp [calculate_race_violation, h1, h2]
    · simp [calculate_race_violation, h1, h2, Option.all, decide_eq_true_eq]

/-- Claim C6 (counterexample): at the empty percentile window (50, 50) the
number used for participant filtering (get_participant_violation_value) is
0.0, while the scalar summary returned by calculate_race_violation on the
same data and window is the NaN mean of an empty slice — the two are not the
same number. -/
theorem C6_cex :
    get_participant_violation_value .standard dEx (50, 50) false = some 0
    ∧ (calculate_race_violation .standard dEx (50, 50) false).map
        (fun r => r.meanViolation) = some none := by
  constructor <;> with_unfolding_all rfl

/-- Claim C6 (amended): the number compared against the raw-value exclusion
thresholds in plot_race_model is get_participant_violation_value — the
windowed SUM of positive differences between the returned AV ECDF and the
returned race-model curve — not the mean scalar summary returned by
calculate_race_violation. -/
theorem C6_filter_value (m : ModelType) (loV hiV lo hi : ℚ) (d : List Trial)
    (pp : Bool) :
    plot_race_model_keeps m loV hiV d (lo, hi) pp
      = (get_participant_violation_value m d (lo, hi) pp).map
          (fun v => decide (loV ≤ v ∧ v ≤ hiV))
    ∧ ((calculate_race_violation m d (lo, hi) pp).all fun r =>
        get_participant_violation_value m d (lo, hi) pp ==
          (if hasAllModalities d then
            some ((List.zipWith (fun o q => max (o - q) 0)
              (pySlice r.ecdfAV (pctIdx 500 lo) (pctIdx 500 hi))
              (pySlice r.raceCurve (pctIdx 500 lo) (pctIdx 500 hi))).sum)
          else none)) = true := by
  refine ⟨rfl, ?_⟩
  cases hcalc : calculate_race_violation m d (lo, hi) pp with
  | none => rfl
  | some r =>
    rw [Option.all]
    cases hmod : hasAllModalities d with
    | false =>
      simp only [Bool.false_eq_true, if_false]
      simp only [get_participant_violation_value, hmod, Bool.false_eq_true, if_false]
      rfl
    | true =>
      simp only [if_true]
      simp only [get_participant_violation_value, hmod, if_true, hcalc]
      have h500 := commonRts_length hcalc
      simp only [h500]
      exact beq_self_eq_true _

/-- Claim C8 (counterexample): on the empty percentile window (50, 50) the
windowed summary computed by get_participant_violation_value is exactly 0.0
(the sum of an empty slice), silently treated as zero rather than flagged as
NaN — so not every window-summarizing code path yields NaN. -/
theorem C8_cex :
    get_participant_violation_value .standard dEx (50, 50) true = some 0 := by
  with_unfolding_all rfl

/-- Claim C8 (amended): on an empty percentile window (lo = hi), the scalar
summary of calculate_race_violation is the NaN mean of an empty slice
(modelled as none) in both modes, while get_participant_violation_value sums
the empty slice and returns exactly 0.0 whenever it returns a value at
all. -/
theorem C8_empty_window (m : ModelType) (d : List Trial) (pp : Bool) (lo : ℚ) :
    ((calculate_race_violation m d (lo, lo) pp).map (fun r => r.meanViolation)
      = (calculate_race_violation m d (lo, lo) pp).map (fun _ => (none : Option ℚ)))
    ∧ (get_participant_violation_value m d (lo, lo) pp
      = (get_participant_violation_value m d (lo, lo) pp).map (fun _ => (0:ℚ))) := by
  constructor
  · cases hcalc : calculate_race_violation m d (lo, lo) pp with
    | none => rfl
    | some r =>
      rw [Option.map_some', Option.map_some', meanViolation_empty_window hcalc]
  · cases hmod : hasAllModalities d with
    | false =>
      simp only [get_participant_violation_value, hmod, Bool.false_eq_true, if_false]
      rfl
    | true =>
      simp only [get_participant_violation_value, hmod, if_true]
      cases hcalc : calculate_race_violation m d (lo, lo) pp with
      | none => rfl
      | some r =>
        simp only [pySlice_self, List.zipWith_nil_left, List.sum_nil, Option.map_some']

/-- Claim C10: get_participant_violation_value returns None before any
computation when a modality is entirely absent; otherwise, whenever the
violation computation returns a result, it returns the sum over window
indices [floor(500 lo/100), floor(500 hi/100)) of
max(ecdf_av[i] - race_model[i], 0) on the returned curves, and in particular
exactly 0.0 (not NaN, not None) when lo = hi. -/
theorem C10_participant_value (m : ModelType) (d : List Trial) (lo hi : ℚ)
    (pp : Bool) :
    (hasAllModalities d = false → get_participant_violation_value m d (lo, hi) pp = none)
    ∧ (hasAllModalities d = true →
        get_participant_violation_value m d (lo, hi) pp
          = (calculate_race_violation m d (lo, hi) pp).map (fun r =>
              (List.zipWith (fun o q => max (o - q) 0)
                (pySlice r.ecdfAV (pctIdx 500 lo) (pctIdx 500 hi))
                (pySlice r.raceCurve (pctIdx 500 lo) (pctIdx 500 hi))).sum))
    ∧ (hasAllModalities d = true →
        get_participant_violation_value m d (lo, lo) pp
          = (calculate_race_violation m d (lo, lo) pp).map (fun _ => (0:ℚ))) := by
  refine ⟨?_, ?_, ?_⟩
  · intro hmod
    simp only [get_participant_violation_value, hmod, Bool.false_eq_true, if_false]
  · intro hmod
    simp only [get_participant_violation_value, hmod, if_true]
    cases hcalc : calculate_race_violation m d (lo, hi) pp with
    | none => rfl
    | some r =>
      have h500 := commonRts_length hcalc
      simp only [h500, Option.map_some']
  · intro hmod
    simp only [get_participant_violation_value, hmod, if_true]
    cases hcalc : calculate_race_violation m d (lo, lo) pp with
    | none => rfl
    | some r =>
      simp only [pySlice_self, List.zipWith_nil_left, List.sum_nil, Option.map_some']

/-- Witness for C10_participant_value: a dataframe missing the Visual and
Audiovisual modalities yields None; the full example dataframe at the empty
window (50, 50) yields exactly the zero of the empty sum. -/
theorem C10_participant_value_witness :
    get_participant_violation_value .standard [⟨1, 1, 100⟩] (0, 100) false = none
    ∧ get_participant_violation_value .standard dEx (50, 50) true
        = (calculate_race_violation .standard dEx (50, 50) true).map (fun _ => (0:ℚ)) :=
  ⟨(C10_participant_value .standard [⟨1, 1, 100⟩] 0 100 false).1 (by rfl),
   (C10_participant_value .standard dEx 50 50 true).2.2 (by rfl)⟩

theorem all_inUnit_of_mem {l : List ℚ} (h : ∀ x ∈ l, 0 ≤ x ∧ x ≤ 1) :
    l.all inUnit = true := by
  rw [List.all_eq_true]
  intro x hx
  rw [inUnit, Bool.and_eq_true, decide_eq_true_eq, decide_eq_true_eq]
  exact h x hx

theorem pooled_grid_le {d : List Trial} (hA : colRT d 1 ≠ []) (hV : colRT d 2 ≠ [])
    (hAV : colRT d 3 ≠ []) :
    min (listMin (colRT d 1)) (min (listMin (colRT d 2)) (listMin (colRT d 3)))
      ≤ max (listMax (colRT d 1)) (max (listMax (colRT d 2)) (listMax (colRT d 3))) :=
  le_trans (min_le_left _ _) (le_trans (listMin_le_listMax hA) (le_max_left _ _))

theorem pooled_some_fields {m : ModelType} {d : List Trial} {pr : ℚ × ℚ}
    {r : RaceResult} (h : calculate_race_violation m d pr false = some r) :
    colRT d 1 ≠ [] ∧ colRT d 2 ≠ [] ∧ colRT d 3 ≠ [] ∧
    r.ecdfA = ecdfOnGrid (colRT d 1) r.commonRts ∧
    r.ecdfV = ecdfOnGrid (colRT d 2) r.commonRts ∧
    r.ecdfAV = ecdfOnGrid (colRT d 3) r.commonRts ∧
    r.commonRts = linspace
      (min (listMin (colRT d 1)) (min (listMin (colRT d 2)) (listMin (colRT d 3))))
      (max (listMax (colRT d 1)) (max (listMax (colRT d 2)) (listMax (colRT d 3)))) 500 := by
  by_cases h1 : colRT d 1 = [] ∨ colRT d 2 = [] ∨ colRT d 3 = []
  · simp [calculate_race_violation, h1] at h
  · by_cases h2 : min (listMin (colRT d 1)) (min (listMin (colRT d 2)) (listMin (colRT d 3)))
        = max (listMax (colRT d 1)) (max (listMax (colRT d 2)) (listMax (colRT d 3)))
    · simp [calculate_race_violation, h1, h2] at h
    · rcases hrm : calculate_race_model m
          (ecdfOnGrid (colRT d 1) (linspace
            (min (listMin (colRT d 1)) (min (listMin (colRT d 2)) (listMin (colRT d 3))))
            (max (listMax (colRT d 1)) (max (listMax (colRT d 2)) (listMax (colRT d 3)))) 500))
          (ecdfOnGrid (colRT d 2) (linspace
            (min (listMin (colRT d 1)) (min (listMin (colRT d 2)) (listMin (colRT d 3))))
            (max (listMax (colRT d 1)) (max (listMax (colRT d 2)) (listMax (colRT d 3)))) 500))
          (linspace
            (min (listMin (colRT d 1)) (min (listMin (colRT d 2)) (listMin (colRT d 3))))
            (max (listMax (colRT d 1)) (max (listMax (colRT d 2)) (listMax (colRT d 3)))) 500)
        with _ | race
      · simp [calculate_race_violation, h1, h2, hrm] at h
      · simp only [calculate_race_violation, hrm, if_neg h1, if_neg h2,
          Bool.false_eq_true, if_false, Option.some.injEq] at h
        subst h
        push_neg at h1
        exact ⟨h1.1, h1.2.1, h1.2.2, rfl, rfl, rfl, rfl⟩

theorem perpart_some_fields {m : ModelType} {d : List Trial} {pr : ℚ × ℚ}
    {r : RaceResult} (h : calculate_race_violation m d pr true = some r) :
    d.map (fun t => t.rt) ≠ [] ∧
    participantCurves m d r.commonRts ≠ [] ∧
    r.ecdfA = listAvg ((participantCurves m d r.commonRts).map (fun c => c.ea)) 500 ∧
    r.ecdfV = listAvg ((participantCurves m d r.commonRts).map (fun c => c.ev)) 500 ∧
    r.ecdfAV = listAvg ((participantCurves m d r.commonRts).map (fun c => c.eav)) 500 ∧
    r.commonRts = linspace (listMin (d.map (fun t => t.rt)))
      (listMax (d.map (fun t => t.rt))) 500 := by
  by_cases h1 : d.map (fun t => t.rt) = []
  · simp [calculate_race_violation, h1] at h
  · by_cases h2 : participantCurves m d
        (linspace (listMin (d.map (fun t => t.rt)))
          (listMax (d.map (fun t => t.rt))) 500) = []
    · simp [calculate_race_violation, h1, h2] at h
    · simp only [calculate_race_violation, if_neg h1, if_neg h2,
        eq_self_iff_true, if_true, Option.some.injEq] at h
      subst h
      exact ⟨h1, h2, rfl, rfl, rfl, rfl⟩

/-- Claim C9: the engine's ECDF arrays (any valid sample of at least 2
observations, any non-decreasing grid) are non-decreasing along the grid and
bounded in [0,1]; and in both engine modes, every ECDF array in the returned
result — in particular the across-participant arithmetic averages of
per-participant ECDFs — is non-decreasing and bounded in [0,1]. -/
theorem C9_ecdf_monotone (s g : List ℚ) (m : ModelType) (d : List Trial) (lo hi : ℚ) :
    (2 ≤ s.length → nondecreasing g = true →
      nondecreasing (ecdfOnGrid s g) = true ∧ (ecdfOnGrid s g).all inUnit = true)
    ∧ (∀ pp : Bool, ((calculate_race_violation m d (lo, hi) pp).all fun r =>
        nondecreasing r.ecdfA && nondecreasing r.ecdfV && nondecreasing r.ecdfAV &&
        r.ecdfA.all inUnit && r.ecdfV.all inUnit && r.ecdfAV.all inUnit) = true) := by
  constructor
  · intro h2 hg
    have hsne : s ≠ [] := by
      intro h
      rw [h] at h2
      simp at h2
    exact ⟨ecdfOnGrid_nondecreasing s hg,
      all_inUnit_of_mem (ecdfOnGrid_mem_unit hsne g)⟩
  · intro pp
    cases hcalc : calculate_race_violation m d (lo, hi) pp with
    | none => rfl
    | some r =>
      rw [Option.all]
      rw [Bool.and_eq_true, Bool.and_eq_true, Bool.and_eq_true, Bool.and_eq_true,
        Bool.and_eq_true]
      cases pp
      · -- pooled mode
        obtain ⟨hA, hV, hAV, hea, hev, heav, hgrid⟩ := pooled_some_fields hcalc
        have hg : nondecreasing r.commonRts = true := by
          rw [hgrid]
          exact linspace_nondecreasing _ _ 500 (pooled_grid_le hA hV hAV)
        rw [hea, hev, heav]
        exact ⟨⟨⟨⟨⟨ecdfOnGrid_nondecreasing _ hg, ecdfOnGrid_nondecreasing _ hg⟩,
          ecdfOnGrid_nondecreasing _ hg⟩,
          all_inUnit_of_mem (ecdfOnGrid_mem_unit hA _)⟩,
          all_inUnit_of_mem (ecdfOnGrid_mem_unit hV _)⟩,
          all_inUnit_of_mem (ecdfOnGrid_mem_unit hAV _)⟩
      · -- per-participant mode
        obtain ⟨hmap, hpc, hea, hev, heav, hgrid⟩ := perpart_some_fields hcalc
        have hg : nondecreasing r.commonRts = true := by
          rw [hgrid]
          exact linspace_nondecreasing _ _ 500 (listMin_le_listMax hmap)
        have hmapne : ∀ f : PCurves → List ℚ,
            (participantCurves m d r.commonRts).map f ≠ [] := by
          intro f hnil
          rw [List.map_eq_nil_iff] at hnil
          exact hpc hnil
        rw [hea, hev, heav]
        refine ⟨⟨⟨⟨⟨?_, ?_⟩, ?_⟩, ?_⟩, ?_⟩, ?_⟩
        · refine listAvg_nondecreasing _ _ ?_
          intro v hv
          obtain ⟨c, hc, rfl⟩ := List.mem_map.1 hv
          exact (participantCurves_ecdf_nondecreasing hc hg).1
        · refine listAvg_nondecreasing _ _ ?_
          intro v hv
          obtain ⟨c, hc, rfl⟩ := List.mem_map.1 hv
          exact (participantCurves_ecdf_nondecreasing hc hg).2.1
        · refine listAvg_nondecreasing _ _ ?_
          intro v hv
          obtain ⟨c, hc, rfl⟩ := List.mem_map.1 hv
          exact (participantCurves_ecdf_nondecreasing hc hg).2.2
        · refine all_inUnit_of_mem (listAvg_mem_unit _ _ (hmapne _) ?_)
          intro v hv
          obtain ⟨c, hc, rfl⟩ := List.mem_map.1 hv
          exact (participantCurves_ecdf_unit hc).1
        · refine all_inUnit_of_mem (listAvg_mem_unit _ _ (hmapne _) ?_)
          intro v hv
          obtain ⟨c, hc, rfl⟩ := List.mem_map.1 hv
          exact (participantCurves_ecdf_unit hc).2.1
        · refine all_inUnit_of_mem (listAvg_mem_unit _ _ (hmapne _) ?_)
          intro v hv
          obtain ⟨c, hc, rfl⟩ := List.mem_map.1 hv
          exact (participantCurves_ecdf_unit hc).2.2

/-- Witness for C9_ecdf_monotone at the sample [2, 4] and grid [1, 3, 5]. -/
theorem C9_ecdf_monotone_witness :
    nondecreasing (ecdfOnGrid [(2:ℚ), 4] [1, 3, 5]) = true
    ∧ (ecdfOnGrid [(2:ℚ), 4] [1, 3, 5]).all inUnit = true :=
  (C9_ecdf_monotone [(2:ℚ), 4] [1, 3, 5] .standard [] 0 100).1 (by decide)
    (by with_unfolding_all decide)

/-- Claim C7: the permutation test computes K permuted violation values by
reshuffling the pooled RTs and re-partitioning into the original per-modality
sample sizes, returns the one-sided p-value equal to the fraction of permuted
violations that are at least the observed violation, and flags significance
exactly when p is strictly below alpha; the widget defaults are K = 1000 and
alpha = 0.05. -/
theorem C7_permutation_test (m : ModelType) (shuffles : List (List ℚ))
    (nA nV nAV : ℕ) (grid : List ℚ) (observed alpha : ℚ) :
    (run_permutation_test m shuffles nA nV nAV grid observed alpha).1
      = ((((shuffles.filterMap
            (fun s => permuted_violation m s nA nV nAV grid)).filter
              (fun v => observed ≤ v)).length : ℚ)
        / ((shuffles.filterMap
            (fun s => permuted_violation m s nA nV nAV grid)).length : ℚ))
    ∧ (run_permutation_test m shuffles nA nV nAV grid observed alpha).2
      = decide ((run_permutation_test m shuffles nA nV nAV grid observed alpha).1 < alpha)
    ∧ default_num_permutations = 1000
    ∧ default_alpha = 5 / 100 :=
  ⟨rfl, rfl, rfl, rfl⟩
